import Mathlib

/-!
Shallow embedding of `src/methods/bo.py` (class `BO`): the Bayesian
Optimization control loop `bayesian_optimization`, the multi-restart
acquisition optimizer `get_suggestion`, the multi-restart hyperparameter
fitter `optimize_restarts`, the uniform sampler `random_sample`, the
output normalizer `normalize`, and the constructor `BO.__init__`.

Modelling conventions: Python floats are rationals (`ℚ`; real numbers `ℝ`
in `normalize`, whose formula involves a square root, and `WithTop ℚ` in
`optimize_restarts`, where `float("inf")` is a value); numpy arrays are
lists of rows; Python exceptions are `Except` with an error code; the
external collaborators (the black-box objective, the nonlinear solver
`solve`, numpy's uniform sampler, the gpflow GP engine) are oracle
function parameters, exactly as wide as the interfaces the source uses.
-/

namespace BO

/-- Python exceptions raised by the embedded code. -/
inductive PyErr
  | typeError
  | keyError
  | attributeError
  | assertionError
  deriving DecidableEq, Repr

/-- A point of the search space: one row of an `X` array (`dim` entries). -/
abbrev Pt := List ℚ

/-- One observation row of a `y` array: the objective value in column 0,
auxiliary columns after it. -/
abbrev Obs := List ℚ

/-- One trial of the restart loop of `get_suggestion` (lines 103-123 of
`bo.py`): the external solver `solve` either returns a candidate batch `X0`
with its acquisition value `y0` (the `status` return is unused), or raises,
which the `except:` clause catches; a caught trial contributes nothing. -/
abbrev SolveTrial := Except Unit (List Pt × ℚ)

/-- The incumbent update inside `get_suggestion` (lines 107-123): `acc` holds
the best `(X, y)` found so far (`none` while `X is None`); a successful trial
replaces the incumbent exactly when `X is None or y0 < y` (line 116); a trial
that raised leaves the incumbent untouched. -/
def suggestStep (acc : Option (List Pt × ℚ)) (tr : SolveTrial) :
    Option (List Pt × ℚ) :=
  match tr with
  | .error _ => acc
  | .ok (X0, y0) =>
    match acc with
    | none => some (X0, y0)
    | some (X, y) => if y0 < y then some (X0, y0) else some (X, y)

/-- `BO.get_suggestion` (lines 94-128 of `bo.py`), with the per-restart solver
calls abstracted into a list of trial outcomes (one entry per iteration of
`range(self.options['opt_restarts'])`): fold the incumbent update over the
trials, then `assert X is not None` (line 126), which raises
`AssertionError` when the incumbent was never set. -/
def get_suggestion (trials : List SolveTrial) : Except PyErr (List Pt) :=
  match trials.foldl suggestStep none with
  | some (X, _) => .ok X
  | none => .error .assertionError

/-- The model's free-state vector (`get_free_state()` / `set_state`). -/
abbrev Param := List ℚ

/-- One trial of the restart loop of `optimize_restarts` (lines 152-161):
`self.randomize(); self.optimize(...); x = self.get_free_state().copy()` —
a successful trial yields the optimized free state `x`; any other exception
than `KeyboardInterrupt` is caught. -/
abbrev FitTrial := Except Unit Param

/-- The body of the restarts loop of `optimize_restarts` (lines 152-165).
On success, `val = obj(x)[0]`; on a caught exception, `val = float("inf")`
(line 161), so the update guard `val < val_min` (line 163) can never hold
(`⊤ < v` is false in `WithTop ℚ`) and the incumbent is kept — the stale `x`
the Python code would read in that unreachable branch is modelled by the
current incumbent. -/
def restartStep (obj : Param → WithTop ℚ) (s : Param × WithTop ℚ)
    (tr : FitTrial) : Param × WithTop ℚ :=
  match tr with
  | .ok x =>
    let val := obj x
    if val < s.2 then (x, val) else s
  | .error _ =>
    let val : WithTop ℚ := ⊤
    if val < s.2 then (s.1, val) else s

/-- `BO.optimize_restarts` (lines 142-167 of `bo.py`), with the
`randomize`/`optimize`/`get_free_state` sequence of each restart abstracted
into one trial outcome per restart and the compiled `self._objective`
abstracted into `obj`. The entry state is the initial incumbent
(lines 150-151: `par_min = self.get_free_state().copy();
val_min = obj(par_min)[0]`); line 167 (`self.set_state(par_min)`) writes the
incumbent back, which the return value models. -/
def optimize_restarts (par0 : Param) (obj : Param → WithTop ℚ)
    (trials : List FitTrial) : Param :=
  let par_min := par0
  let val_min := obj par_min
  (trials.foldl (restartStep obj) (par_min, val_min)).1

/-- Column assignment `X[:, i] = v` on a row-list matrix. -/
def setColumn (X : List (List ℚ)) (i : Nat) (v : List ℚ) : List (List ℚ) :=
  List.zipWith (fun row x => row.set i x) X v

/-- `BO.random_sample` (lines 169-185 of `bo.py`), with numpy's
`np.random.uniform(low, high, k)` abstracted into the oracle `u`: start from
`X = np.zeros((k, n))` and assign, for each dimension `i` in `range(n)`,
the column `X[:, i] = u(bounds[i, 0], bounds[i, 1], k)`. -/
def random_sample (u : ℚ → ℚ → Nat → List ℚ) (bounds : List (ℚ × ℚ))
    (k : Nat) : List (List ℚ) :=
  (List.range bounds.length).foldl
    (fun X i =>
      setColumn X i (u (bounds.getD i (0, 0)).1 (bounds.getD i (0, 0)).2 k))
    (List.replicate k (List.replicate bounds.length 0))

/-- The iteration loop of `bayesian_optimization` (lines 68-91 of `bo.py`).
Per iteration `i`: the refit `self.optimize_restarts(...)` (line 69), the
optional posterior sampling (lines 71-74) and the model-data update
(lines 89-90, `self.X = X_all; self.Y = self.normalize(...)`) mutate only the
surrogate model, whose influence on the proposed batch the suggestion oracle
`sug` absorbs (it is indexed by the iteration counter); the dataset is grown
by `X_new = self.get_suggestion(self.batch_size)` (line 77, which may raise)
and `y_new = objective.f(X_new)` (line 78), appended with `np.concatenate`
(lines 82-83). `i` is the loop counter, `n` the number of remaining
iterations, `acc` the current `(X_all, y_all)`. -/
def bo_loop (f : List Pt → List Obs) (sug : Nat → Except PyErr (List Pt)) :
    Nat → Nat → List Pt × List Obs → Except PyErr (List Pt × List Obs)
  | _, 0, acc => .ok acc
  | i, Nat.succ n, acc =>
    match sug i with
    | .error e => .error e
    | .ok X_new =>
      let y_new := f X_new
      bo_loop f sug (i + 1) n (acc.1 ++ X_new, acc.2 ++ y_new)

/-- Line 47 of `bo.py`: `tf.set_random_seed(seed)` — an external call that
succeeds. -/
def tfSetRandomSeed (s : Int) : Except PyErr Unit := .ok ()

/-- Line 48 of `bo.py`: `seed(seed)`. The local name `seed` is the integer
argument of `bayesian_optimization` itself (no `seed` function is imported;
the comment above the line shows `np.random.seed(seed)` was intended), and
calling an `int` raises `TypeError: 'int' object is not callable`. -/
def pyCallInt (f arg : Int) : Except PyErr Unit := .error .typeError

/-- Line 49 of `bo.py`: `random.seed(seed)` — an external call that succeeds
on an integer argument. -/
def pyRandomSeed (s : Int) : Except PyErr Unit := .ok ()

/-- `BO.bayesian_optimization` (lines 40-92 of `bo.py`): seed the three RNGs
(lines 47-49), copy the objective (line 52, purity of the oracle `f`), draw
and evaluate the initial design (lines 53-54), set the model data
(lines 60-61, absorbed into the suggestion oracle like all model state), and
run the iteration loop (lines 68-91), returning `(X_all, y_all)` (line 92). -/
def bayesian_optimization (f : List Pt → List Obs)
    (sug : Nat → Except PyErr (List Pt)) (u : ℚ → ℚ → Nat → List ℚ)
    (bounds : List (ℚ × ℚ)) (initial_size iterations : Nat) (seed : Int) :
    Except PyErr (List Pt × List Obs) := do
  let _ ← tfSetRandomSeed seed
  let _ ← pyCallInt seed seed
  let _ ← pyRandomSeed seed
  let X0 := random_sample u bounds initial_size
  let y0 := f X0
  bo_loop f sug 0 iterations (X0, y0)

/-- `np.mean` of a vector. -/
noncomputable def mean0 (ys : List ℝ) : ℝ := ys.sum / ys.length

/-- `np.std` of a vector: the population standard deviation, the square root
of the mean squared deviation. -/
noncomputable def std0 (ys : List ℝ) : ℝ :=
  Real.sqrt ((ys.map (fun y => (y - mean0 ys) ^ 2)).sum / ys.length)

/-- The first column `Y[:, 0]` of a row-list matrix. -/
def col0 (Y : List (List ℝ)) : List ℝ := Y.map (fun row => row.headD 0)

/-- Column-0 assignment `Y_[:, 0] = v` on a row-list matrix. -/
def setCol0 (Y : List (List ℝ)) (v : List ℝ) : List (List ℝ) :=
  List.zipWith (fun row x => x :: row.tail) Y v

/-- `BO.normalize` (lines 187-201 of `bo.py`): copy `Y` (`Y_ = Y.copy()`, so
the input is never mutated — purity is intrinsic here), and if
`self.options['normalize_Y'] and np.std(Y[:, 0]) > 0`, assign
`Y_[:, 0] = (Y[:, 0] - np.mean(Y[:, 0])) / np.std(Y[:, 0])`; return `Y_`. -/
noncomputable def normalize (normalize_Y : Bool) (Y : List (List ℝ)) :
    List (List ℝ) :=
  if normalize_Y = true ∧ 0 < std0 (col0 Y) then
    setCol0 Y
      ((col0 Y).map (fun y => (y - mean0 (col0 Y)) / std0 (col0 Y)))
  else Y

/-- Python values stored in the options dict of `BO.__init__`. -/
inductive PyVal
  | pynone
  | pyint (n : Int)
  | pybool (b : Bool)
  | pynum (q : ℚ)
  | pystr (s : String)
  | pyobjective (bounds : List (ℚ × ℚ))
  | pyhandle (id : Nat)
  deriving DecidableEq, Repr

/-- A Python dict with string keys, as an association list. -/
abbrev PyDict := List (String × PyVal)

/-- The observable state `BO.__init__` builds: the copied bounds and `dim`
(lines 16-17), the unpacked options (lines 28-31), the stored options copy
(line 33), and the likelihood noise parameter (gpflow's `GPR` default is a
free variance of `1.0`; lines 36-38 overwrite and fix it). -/
structure BOState where
  bounds : List (ℚ × ℚ)
  dim : Nat
  iterations : PyVal
  batch_size : PyVal
  initial_size : PyVal
  hessian : PyVal
  options : PyDict
  likelihood_variance : ℚ
  likelihood_variance_fixed : Bool
  deriving DecidableEq, Repr

/-- Python subscript `d[k]` on a dict: the value, or a `KeyError`. -/
def dictGet (d : PyDict) (k : String) : Except PyErr PyVal :=
  match List.lookup k d with
  | some v => .ok v
  | none => .error .keyError

/-- Python membership test `k in d` on a dict. -/
def hasKey (d : PyDict) (k : String) : Bool := (List.lookup k d).isSome

/-- Lines 19-20 of `bo.py`: `if 'mean_function' not in options:
options['mean_function'] = None` — note this writes into the caller's dict. -/
def withDefaultMeanFunction (options : PyDict) : PyDict :=
  if hasKey options "mean_function" then options
  else options ++ [("mean_function", PyVal.pynone)]

/-- Lines 21-38 of `BO.__init__`, after the `mean_function` default has been
inserted: the `super().__init__` argument reads (`options['kernel']`,
`options['mean_function']`), the unpacking of `iterations`, `batch_size`,
`initial_size`, `hessian` (lines 28-31), the copy `self.options =
options.copy()` (line 33), and the noise handling (lines 36-38):
`self.options['noise']` raises `KeyError` when the key is absent; a `None`
value leaves the likelihood variance at its free default; a numeric value is
written to `self.likelihood.variance` and fixed. -/
def BO_init_body (bounds : List (ℚ × ℚ)) (options : PyDict) :
    Except PyErr BOState := do
  let _kernel ← dictGet options "kernel"
  let _mean_function ← dictGet options "mean_function"
  let iterations ← dictGet options "iterations"
  let batch_size ← dictGet options "batch_size"
  let initial_size ← dictGet options "initial_size"
  let hessian ← dictGet options "hessian"
  let selfOptions := options
  let noise ← dictGet selfOptions "noise"
  match noise with
  | PyVal.pynone =>
    .ok ⟨bounds, bounds.length, iterations, batch_size, initial_size,
      hessian, selfOptions, 1, false⟩
  | PyVal.pynum q =>
    .ok ⟨bounds, bounds.length, iterations, batch_size, initial_size,
      hessian, selfOptions, q, true⟩
  | _ => .error .typeError

/-- `BO.__init__` (lines 15-38 of `bo.py`). The result is paired with the
caller's options dict as it stands after the call: the write at line 20 is a
mutation of the caller's dict, and it happens after the `options['objective']`
read of line 16 (whose `KeyError`, or the attribute failure of `.bounds` on a
non-objective value, leaves the dict untouched). -/
def BO_init (options : PyDict) : Except PyErr BOState × PyDict :=
  match List.lookup "objective" options with
  | none => (.error .keyError, options)
  | some (PyVal.pyobjective bounds) =>
    let options2 := withDefaultMeanFunction options
    (BO_init_body bounds options2, options2)
  | some _ => (.error .attributeError, options)

/-- A configuration bundle holding every recognized option except `noise`. -/
def optsNoNoise : PyDict :=
  [("objective", PyVal.pyobjective [(0, 1)]),
   ("kernel", PyVal.pyhandle 0),
   ("iterations", PyVal.pyint 1),
   ("batch_size", PyVal.pyint 1),
   ("initial_size", PyVal.pyint 3),
   ("hessian", PyVal.pybool false),
   ("normalize_Y", PyVal.pybool true),
   ("model_restarts", PyVal.pyint 1),
   ("samples", PyVal.pyint 0),
   ("opt_restarts", PyVal.pyint 1),
   ("nl_solver", PyVal.pyhandle 1)]

/-- The same configuration bundle with `noise` present and set to `None`. -/
def optsNoiseNone : PyDict :=
  [("objective", PyVal.pyobjective [(0, 1)]),
   ("kernel", PyVal.pyhandle 0),
   ("iterations", PyVal.pyint 1),
   ("batch_size", PyVal.pyint 1),
   ("initial_size", PyVal.pyint 3),
   ("hessian", PyVal.pybool false),
   ("noise", PyVal.pynone),
   ("normalize_Y", PyVal.pybool true),
   ("model_restarts", PyVal.pyint 1),
   ("samples", PyVal.pyint 0),
   ("opt_restarts", PyVal.pyint 1),
   ("nl_solver", PyVal.pyhandle 1)]

/-- A degenerate sampling oracle for witnesses: always return the lower
bound. -/
def uConst (lo : ℚ) (hi : ℚ) (k : Nat) : List ℚ := List.replicate k lo

/-- A trial that raised keeps the incumbent state of `optimize_restarts`
unchanged: `float("inf") < val_min` never holds. -/
lemma restartStep_error (obj : Param → WithTop ℚ) (s : Param × WithTop ℚ)
    (e : Unit) : restartStep obj s (Except.error e) = s := by
  show (if (⊤ : WithTop ℚ) < s.2 then (s.1, (⊤ : WithTop ℚ)) else s) = s
  exact if_neg not_top_lt

/-- Fold invariant of `optimize_restarts`: if the tracked value is the
objective of the tracked parameters, this persists, and the tracked value
never increases. -/
lemma restart_fold_invariant (obj : Param → WithTop ℚ) :
    ∀ (trials : List FitTrial) (s : Param × WithTop ℚ), s.2 = obj s.1 →
      (trials.foldl (restartStep obj) s).2
          = obj (trials.foldl (restartStep obj) s).1
        ∧ (trials.foldl (restartStep obj) s).2 ≤ s.2 := by
  intro trials
  induction trials with
  | nil => intro s h; exact ⟨h, le_refl _⟩
  | cons tr rest ih =>
    intro s h
    have hstep : (restartStep obj s tr).2 = obj (restartStep obj s tr).1
        ∧ (restartStep obj s tr).2 ≤ s.2 := by
      cases tr with
      | error e => rw [restartStep_error]; exact ⟨h, le_refl _⟩
      | ok x =>
        have hok : restartStep obj s (Except.ok x)
            = if obj x < s.2 then (x, obj x) else s := rfl
        rw [hok]
        by_cases hv : obj x < s.2
        · rw [if_pos hv]; exact ⟨rfl, le_of_lt hv⟩
        · rw [if_neg hv]; exact ⟨h, le_refl _⟩
    have h2 := ih (restartStep obj s tr) hstep.1
    exact ⟨h2.1, le_trans h2.2 hstep.2⟩

/-- Claim C2: for every restart count `restarts ≥ 0` (the trial list has one
entry per restart), `optimize_restarts` leaves the model's parameter state
with objective value no worse than at entry; with `restarts = 0` the state
is unchanged; and a restart trial that throws is treated as objective
`+infinity`: it never changes the incumbent `val_min`/`par_min` (the loop
state is kept as-is) and never aborts the fit (deleting the failed trial
from the trial list leaves the result unchanged). -/
theorem optimize_restarts_never_worse :
    (∀ (par0 : Param) (obj : Param → WithTop ℚ) (trials : List FitTrial),
        obj (optimize_restarts par0 obj trials) ≤ obj par0)
    ∧ (∀ (par0 : Param) (obj : Param → WithTop ℚ),
        optimize_restarts par0 obj [] = par0)
    ∧ (∀ (obj : Param → WithTop ℚ) (s : Param × WithTop ℚ),
        restartStep obj s (Except.error ()) = s)
    ∧ (∀ (par0 : Param) (obj : Param → WithTop ℚ)
          (pre post : List FitTrial),
        optimize_restarts par0 obj (pre ++ Except.error () :: post)
          = optimize_restarts par0 obj (pre ++ post)) := by
  refine ⟨?_, ?_, ?_, ?_⟩
  · intro par0 obj trials
    have h := restart_fold_invariant obj trials (par0, obj par0) rfl
    show obj (trials.foldl (restartStep obj) (par0, obj par0)).1 ≤ obj par0
    rw [← h.1]
    exact h.2
  · intro par0 obj; rfl
  · intro obj s; exact restartStep_error obj s ()
  · intro par0 obj pre post
    show (List.foldl (restartStep obj) (par0, obj par0)
            (pre ++ Except.error () :: post)).1
        = (List.foldl (restartStep obj) (par0, obj par0) (pre ++ post)).1
    rw [List.foldl_append, List.foldl_append, List.foldl_cons,
      restartStep_error]

/-- Folding the incumbent update over trials that all raised leaves the
incumbent unchanged. -/
lemma suggest_fold_all_failed :
    ∀ (trials : List SolveTrial) (acc : Option (List Pt × ℚ)),
      (∀ tr ∈ trials, tr = Except.error ()) →
      trials.foldl suggestStep acc = acc := by
  intro trials
  induction trials with
  | nil => intro acc _; rfl
  | cons tr rest ih =>
    intro acc h
    have htr : tr = Except.error () := h tr (List.mem_cons_self tr rest)
    rw [List.foldl_cons, htr]
    exact ih acc fun t ht => h t (List.mem_cons_of_mem tr ht)

/-- Once the incumbent of `get_suggestion` is set, it stays set. -/
lemma suggest_fold_some :
    ∀ (trials : List SolveTrial) (p : List Pt × ℚ),
      ∃ q, trials.foldl suggestStep (some p) = some q := by
  intro trials
  induction trials with
  | nil => intro p; exact ⟨p, rfl⟩
  | cons tr rest ih =>
    intro p
    cases tr with
    | error e => exact ih p
    | ok q =>
      obtain ⟨qX, qy⟩ := q
      obtain ⟨pX, py⟩ := p
      rw [List.foldl_cons]
      show ∃ r, List.foldl suggestStep
        (if qy < py then some (qX, qy) else some (pX, py)) rest = some r
      by_cases hv : qy < py
      · rw [if_pos hv]; exact ih (qX, qy)
      · rw [if_neg hv]; exact ih (pX, py)

/-- A successful trial anywhere in the list guarantees that the incumbent of
`get_suggestion` ends up set. -/
lemma suggest_fold_of_mem_ok :
    ∀ (trials : List SolveTrial) (p : List Pt × ℚ),
      Except.ok p ∈ trials →
      ∃ q, trials.foldl suggestStep none = some q := by
  intro trials
  induction trials with
  | nil => intro p hp; simp at hp
  | cons tr rest ih =>
    intro p hp
    cases tr with
    | error e =>
      rw [List.foldl_cons]
      rcases List.mem_cons.mp hp with h | h
      · cases h
      · exact ih p h
    | ok q =>
      obtain ⟨qX, qy⟩ := q
      rw [List.foldl_cons]
      exact suggest_fold_some rest (qX, qy)

/-- Claim C4: for `opt_restarts ≥ 1` (a nonempty trial list), if every restart
trial of `get_suggestion` fails then `get_suggestion` raises the fatal
`AssertionError` instead of returning a batch; a failed trial among the others
is non-fatal and contributes no candidate (deleting it from the trial list
leaves the result unchanged); and any successful trial guarantees that a batch
is returned. -/
theorem all_trials_failed_fatal :
    (∀ trials : List SolveTrial, 1 ≤ trials.length →
        (∀ tr ∈ trials, tr = Except.error ()) →
        get_suggestion trials = Except.error PyErr.assertionError)
    ∧ (∀ pre post : List SolveTrial,
        get_suggestion (pre ++ Except.error () :: post)
          = get_suggestion (pre ++ post))
    ∧ (∀ (trials : List SolveTrial) (p : List Pt × ℚ),
        Except.ok p ∈ trials →
        ∃ X, get_suggestion trials = Except.ok X) := by
  refine ⟨?_, ?_, ?_⟩
  · intro trials _ h
    unfold get_suggestion
    rw [suggest_fold_all_failed trials none h]
  · intro pre post
    unfold get_suggestion
    rw [List.foldl_append, List.foldl_append, List.foldl_cons]
    rfl
  · intro trials p hp
    obtain ⟨q, hq⟩ := suggest_fold_of_mem_ok trials p hp
    obtain ⟨qX, qy⟩ := q
    refine ⟨qX, ?_⟩
    unfold get_suggestion
    rw [hq]

/-- Witness for C4 at concrete trial lists. -/
theorem all_trials_failed_fatal_witness :
    get_suggestion [Except.error ()] = Except.error PyErr.assertionError
    ∧ get_suggestion ([Except.ok ([[0]], (1 : ℚ))] ++ Except.error () :: [])
        = get_suggestion ([Except.ok ([[0]], (1 : ℚ))] ++ [])
    ∧ ∃ X, get_suggestion [Except.ok ([[0]], (1 : ℚ))] = Except.ok X := by
  refine ⟨all_trials_failed_fatal.1 _ (by decide) ?_,
    all_trials_failed_fatal.2.1 _ _,
    all_trials_failed_fatal.2.2 _ ([[0]], (1 : ℚ)) (by simp)⟩
  intro tr h
  simpa using h

/-- Claim C9 (implicit): with `opt_restarts = 0` the restart loop of
`get_suggestion` runs no trial, the incumbent `X` stays unset (`none`), and
the final `assert X is not None` fails with an `AssertionError` even though
no trial actually failed. -/
theorem zero_opt_restarts_assertion :
    ([] : List SolveTrial).foldl suggestStep none = none
    ∧ get_suggestion ([] : List SolveTrial)
        = Except.error PyErr.assertionError :=
  ⟨rfl, rfl⟩

/-- If no successful trial strictly beats the current incumbent of
`get_suggestion`, the incumbent survives the whole fold. -/
lemma suggest_fold_keep :
    ∀ (trials : List SolveTrial) (p : List Pt × ℚ),
      (∀ q, Except.ok q ∈ trials → ¬ q.2 < p.2) →
      trials.foldl suggestStep (some p) = some p := by
  intro trials
  induction trials with
  | nil => intro p _; rfl
  | cons tr rest ih =>
    intro p h
    cases tr with
    | error e =>
      rw [List.foldl_cons]
      exact ih p fun q hq => h q (List.mem_cons_of_mem _ hq)
    | ok q =>
      obtain ⟨qX, qy⟩ := q
      obtain ⟨pX, py⟩ := p
      have hq : ¬ qy < py := h (qX, qy) (List.mem_cons_self _ _)
      rw [List.foldl_cons]
      show List.foldl suggestStep
        (if qy < py then some (qX, qy) else some (pX, py)) rest = _
      rw [if_neg hq]
      exact ih (pX, py) fun q hq => h q (List.mem_cons_of_mem _ hq)

/-- If no successful trial strictly beats the entry objective value, the fold
of `optimize_restarts` never leaves the entry state. -/
lemma restart_fold_keep (obj : Param → WithTop ℚ) (par0 : Param) :
    ∀ trials : List FitTrial,
      (∀ x, Except.ok x ∈ trials → ¬ obj x < obj par0) →
      trials.foldl (restartStep obj) (par0, obj par0) = (par0, obj par0) := by
  intro trials
  induction trials with
  | nil => intro _; rfl
  | cons tr rest ih =>
    intro h
    cases tr with
    | error e =>
      rw [List.foldl_cons, restartStep_error]
      exact ih fun x hx => h x (List.mem_cons_of_mem _ hx)
    | ok x =>
      have hx : ¬ obj x < obj par0 := h x (List.mem_cons_self _ _)
      have hok : restartStep obj (par0, obj par0) (Except.ok x)
          = if obj x < obj par0 then (x, obj x) else (par0, obj par0) := rfl
      rw [List.foldl_cons, hok, if_neg hx]
      exact ih fun x hx => h x (List.mem_cons_of_mem _ hx)

/-- Claim C5: both multi-restart reducers select with strict less-than. In
`get_suggestion`, a later trial replaces a set incumbent only when its value
is strictly smaller (ties keep the earlier incumbent), while the first
successful trial always becomes the initial incumbent unconditionally; in
`optimize_restarts`, the entry state is the initial incumbent and wins all
ties against later trials. -/
theorem best_of_n_strict_tie_breaking :
    (∀ (p : List Pt × ℚ) (trials : List SolveTrial),
        (∀ q, Except.ok q ∈ trials → ¬ q.2 < p.2) →
        trials.foldl suggestStep (some p) = some p)
    ∧ (∀ (p : List Pt × ℚ) (trials : List SolveTrial),
        (Except.ok p :: trials).foldl suggestStep none
          = trials.foldl suggestStep (some p))
    ∧ (∀ (par0 : Param) (obj : Param → WithTop ℚ) (trials : List FitTrial),
        (∀ x, Except.ok x ∈ trials → ¬ obj x < obj par0) →
        optimize_restarts par0 obj trials = par0) := by
  refine ⟨?_, ?_, ?_⟩
  · intro p trials h; exact suggest_fold_keep trials p h
  · intro p trials
    obtain ⟨pX, py⟩ := p
    rfl
  · intro par0 obj trials h
    show (trials.foldl (restartStep obj) (par0, obj par0)).1 = par0
    rw [restart_fold_keep obj par0 trials h]

/-- Witness for C5 at concrete inputs: a tied later trial does not replace
the incumbent, the first success becomes the incumbent, and the entry state
of `optimize_restarts` survives a tied trial. -/
theorem best_of_n_strict_tie_breaking_witness :
    ([Except.ok ([[1]], (1 : ℚ))] : List SolveTrial).foldl suggestStep
        (some ([[0]], (1 : ℚ))) = some ([[0]], (1 : ℚ))
    ∧ ((Except.ok ([[2]], (3 : ℚ)) :: []) : List SolveTrial).foldl suggestStep
        none = ([] : List SolveTrial).foldl suggestStep (some ([[2]], (3 : ℚ)))
    ∧ optimize_restarts [0] (fun _ => (5 : WithTop ℚ)) [Except.ok [1]] = [0] := by
  refine ⟨best_of_n_strict_tie_breaking.1 _ _ ?_,
    best_of_n_strict_tie_breaking.2.1 _ _,
    best_of_n_strict_tie_breaking.2.2 _ _ _ ?_⟩
  · intro q hq
    have : q = ([[1]], (1 : ℚ)) := by simpa using hq
    rw [this]
    exact lt_irrefl _
  · intro x _
    exact lt_irrefl _

/-- A completed run of the loop grows each side of the dataset by exactly
`n * b` rows and only ever appends. -/
lemma bo_loop_growth (f : List Pt → List Obs)
    (sug : Nat → Except PyErr (List Pt)) (b : Nat)
    (hf : ∀ Z, (f Z).length = Z.length)
    (hs : ∀ j B, sug j = Except.ok B → B.length = b) :
    ∀ (n i : Nat) (X : List Pt) (y : List Obs) (Xa : List Pt) (ya : List Obs),
      bo_loop f sug i n (X, y) = Except.ok (Xa, ya) →
      Xa.length = X.length + n * b ∧ ya.length = y.length + n * b
        ∧ (∃ t, Xa = X ++ t) ∧ (∃ t, ya = y ++ t) := by
  intro n
  induction n with
  | zero =>
    intro i X y Xa ya h
    have h' : X = Xa ∧ y = ya := by
      have := h
      unfold bo_loop at this
      cases this
      exact ⟨rfl, rfl⟩
    obtain ⟨h1, h2⟩ := h'
    subst h1; subst h2
    exact ⟨by simp, by simp, ⟨[], by simp⟩, ⟨[], by simp⟩⟩
  | succ n ih =>
    intro i X y Xa ya h
    unfold bo_loop at h
    cases hsug : sug i with
    | error e => rw [hsug] at h; cases h
    | ok B =>
      rw [hsug] at h
      have hB : B.length = b := hs i B hsug
      have hrec := ih (i + 1) (X ++ B) (y ++ f B) Xa ya h
      refine ⟨?_, ?_, ?_, ?_⟩
      · rw [hrec.1, List.length_append, hB]; ring
      · rw [hrec.2.1, List.length_append, hf B, hB]; ring
      · obtain ⟨t, ht⟩ := hrec.2.2.1
        exact ⟨B ++ t, by rw [ht, List.append_assoc]⟩
      · obtain ⟨t, ht⟩ := hrec.2.2.2
        exact ⟨f B ++ t, by rw [ht, List.append_assoc]⟩

/-- Splitting a run of the loop: running `m + k` iterations is running `m`
iterations and, if they complete, `k` more from where they left off. -/
lemma bo_loop_split (f : List Pt → List Obs)
    (sug : Nat → Except PyErr (List Pt)) :
    ∀ (m k i : Nat) (acc : List Pt × List Obs),
      bo_loop f sug i (m + k) acc
        = match bo_loop f sug i m acc with
          | .ok acc2 => bo_loop f sug (i + m) k acc2
          | .error e => .error e := by
  intro m
  induction m with
  | zero =>
    intro k i acc
    simp [bo_loop]
  | succ m ih =>
    intro k i acc
    have harith : m + 1 + k = (m + k) + 1 := by ring
    rw [harith]
    show (match sug i with
      | Except.error e => (Except.error e : Except PyErr (List Pt × List Obs))
      | Except.ok X_new => bo_loop f sug (i + 1) (m + k)
          (acc.1 ++ X_new, acc.2 ++ f X_new)) = _
    cases hsug : sug i with
    | error e =>
      show Except.error e = _
      have : bo_loop f sug i (m + 1) acc = .error e := by
        unfold bo_loop
        rw [hsug]
      rw [this]
    | ok B =>
      show bo_loop f sug (i + 1) (m + k) (acc.1 ++ B, acc.2 ++ f B) = _
      rw [ih k (i + 1) (acc.1 ++ B, acc.2 ++ f B)]
      have h1 : bo_loop f sug i (m + 1) acc
          = bo_loop f sug (i + 1) m (acc.1 ++ B, acc.2 ++ f B) := by
        show (match sug i with
          | Except.error e =>
              (Except.error e : Except PyErr (List Pt × List Obs))
          | Except.ok X_new => bo_loop f sug (i + 1) m
              (acc.1 ++ X_new, acc.2 ++ f X_new)) = _
        rw [hsug]
      rw [h1]
      have h2 : i + 1 + m = i + (m + 1) := by ring
      rw [h2]

/-- Claim C3: a completed run of `n` iterations starting from an initial
dataset of `s` rows with batch size `b` returns `X_all` with exactly
`s + n * b` rows, `X_all` and `y_all` always have equal row counts, and the
dataset is append-only: the initial rows are an unchanged prefix, and the
dataset after any earlier iteration count is an unchanged prefix of the one
after any later count (never reordered or removed). -/
theorem bo_loop_dataset_invariants :
    ∀ (f : List Pt → List Obs) (sug : Nat → Except PyErr (List Pt))
      (b n : Nat) (X0 : List Pt) (y0 : List Obs)
      (Xa : List Pt) (ya : List Obs),
      (∀ Z, (f Z).length = Z.length) →
      (∀ j B, sug j = Except.ok B → B.length = b) →
      y0.length = X0.length →
      bo_loop f sug 0 n (X0, y0) = Except.ok (Xa, ya) →
      Xa.length = X0.length + n * b
      ∧ ya.length = Xa.length
      ∧ (∃ t, Xa = X0 ++ t)
      ∧ (∃ t, ya = y0 ++ t)
      ∧ (∀ m, m ≤ n → ∀ (Xm : List Pt) (ym : List Obs),
          bo_loop f sug 0 m (X0, y0) = Except.ok (Xm, ym) →
          (∃ t, Xa = Xm ++ t) ∧ (∃ t, ya = ym ++ t)) := by
  intro f sug b n X0 y0 Xa ya hf hs hy0 hrun
  have hg := bo_loop_growth f sug b hf hs n 0 X0 y0 Xa ya hrun
  refine ⟨hg.1, ?_, hg.2.2.1, hg.2.2.2, ?_⟩
  · rw [hg.1, hg.2.1, hy0]
  · intro m hm Xm ym hrunm
    have hsplit := bo_loop_split f sug m (n - m) 0 (X0, y0)
    have hnm : m + (n - m) = n := Nat.add_sub_cancel' hm
    rw [hnm] at hsplit
    rw [hrun, hrunm] at hsplit
    have hrest : bo_loop f sug (0 + m) (n - m) (Xm, ym)
        = Except.ok (Xa, ya) := hsplit.symm
    have hg2 := bo_loop_growth f sug b hf hs (n - m) (0 + m) Xm ym Xa ya hrest
    exact ⟨hg2.2.2.1, hg2.2.2.2⟩

/-- Witness for C3: one iteration with batch size 1 on a 1-row initial
dataset, with the identity objective oracle. -/
theorem bo_loop_dataset_invariants_witness :
    ([[1], [0]] : List Pt).length = ([[1]] : List Pt).length + 1 * 1 := by
  have h := bo_loop_dataset_invariants (fun Z => Z)
    (fun _ => Except.ok [[0]]) 1 1 [[1]] [[2]] [[1], [0]] [[2], [0]]
    (fun Z => rfl)
    (fun j B hB => by cases hB; rfl)
    rfl rfl
  exact h.1

/-- Claim C1: `bayesian_optimization` never completes — for every
configuration and every integer seed, line 48 (`seed(seed)`) raises
`TypeError` before the first iteration, so the evaluation history is never
returned. (The code's own comment, `Set random seed: Numpy, Tensorflow,
Python`, shows the numpy seeding call this line was meant to be.) -/
theorem bayesian_optimization_raises_typeerror :
    ∀ (f : List Pt → List Obs) (sug : Nat → Except PyErr (List Pt))
      (u : ℚ → ℚ → Nat → List ℚ) (bounds : List (ℚ × ℚ))
      (initial_size iterations : Nat) (seed : Int),
      bayesian_optimization f sug u bounds initial_size iterations seed
        = Except.error PyErr.typeError := by
  intro f sug u bounds initial_size iterations seed
  rfl

/-- Writing a cell and reading it back. -/
lemma getD_set_self (l : List ℚ) (i : Nat) (x d : ℚ) (h : i < l.length) :
    (l.set i x).getD i d = x := by
  induction l generalizing i with
  | nil => simp at h
  | cons a l ih =>
    cases i with
    | zero => rfl
    | succ i =>
      show (l.set i x).getD i d = x
      exact ih i (by simpa using h)

/-- Writing a cell leaves the other cells alone. -/
lemma getD_set_ne (l : List ℚ) (i j : Nat) (x d : ℚ) (h : i ≠ j) :
    (l.set i x).getD j d = l.getD j d := by
  induction l generalizing i j with
  | nil => rfl
  | cons a l ih =>
    cases i with
    | zero =>
      cases j with
      | zero => exact absurd rfl h
      | succ j => rfl
    | succ i =>
      cases j with
      | zero => rfl
      | succ j =>
        show (l.set i x).getD j d = l.getD j d
        exact ih i j fun he => h (by rw [he])

/-- A `getD` read inside the list is a member of the list. -/
lemma getD_mem_of_lt (l : List ℚ) (r : Nat) (d : ℚ) (h : r < l.length) :
    l.getD r d ∈ l := by
  induction l generalizing r with
  | nil => simp at h
  | cons a l ih =>
    cases r with
    | zero => exact List.mem_cons_self a l
    | succ r =>
      exact List.mem_cons_of_mem a (ih r (by simpa using h))

/-- Reading inside a replicated list. -/
lemma getD_replicate_of_lt (k r : Nat) (a d : List ℚ) (h : r < k) :
    (List.replicate k a).getD r d = a := by
  induction k generalizing r with
  | zero => simp at h
  | succ k ih =>
    cases r with
    | zero => rfl
    | succ r =>
      show (List.replicate k a).getD r d = a
      exact ih r (by omega)

/-- `setColumn` keeps the row count when the column vector is long enough. -/
lemma setColumn_length (X : List (List ℚ)) (i : Nat) (v : List ℚ) :
    (setColumn X i v).length = min X.length v.length := by
  simp [setColumn]

/-- Reading a row after a column assignment. -/
lemma setColumn_getD (i : Nat) :
    ∀ (X : List (List ℚ)) (v : List ℚ) (r : Nat), r < X.length →
      r < v.length →
      (setColumn X i v).getD r [] = (X.getD r []).set i (v.getD r 0) := by
  intro X
  induction X with
  | nil => intro v r h1 _; simp at h1
  | cons row X ih =>
    intro v r h1 h2
    cases v with
    | nil => simp at h2
    | cons x v =>
      cases r with
      | zero => rfl
      | succ r =>
        show (setColumn X i v).getD r [] = (X.getD r []).set i (v.getD r 0)
        exact ih v r (by simpa using h1) (by simpa using h2)

/-- Invariant of the column-filling fold of `random_sample`: after the first
`m` dimensions have been assigned, the matrix is `k` rows of `n` cells, the
first `m` cells of row `r` hold the respective draws, and the rest still hold
the `np.zeros` fill. -/
lemma random_sample_build (u : ℚ → ℚ → Nat → List ℚ)
    (bounds : List (ℚ × ℚ)) (k : Nat)
    (hlen : ∀ lo hi m, (u lo hi m).length = m) :
    ∀ m, m ≤ bounds.length →
      (((List.range m).foldl
          (fun X i =>
            setColumn X i
              (u (bounds.getD i (0, 0)).1 (bounds.getD i (0, 0)).2 k))
          (List.replicate k (List.replicate bounds.length 0))).length = k)
      ∧ (∀ r, r < k →
          ((((List.range m).foldl
              (fun X i =>
                setColumn X i
                  (u (bounds.getD i (0, 0)).1 (bounds.getD i (0, 0)).2 k))
              (List.replicate k (List.replicate bounds.length 0))).getD r
                []).length = bounds.length))
      ∧ (∀ r, r < k → ∀ j,
          ((((List.range m).foldl
              (fun X i =>
                setColumn X i
                  (u (bounds.getD i (0, 0)).1 (bounds.getD i (0, 0)).2 k))
              (List.replicate k (List.replicate bounds.length 0))).getD r
                []).getD j 0)
            = if j < m then
                (u (bounds.getD j (0, 0)).1 (bounds.getD j (0, 0)).2 k).getD
                  r 0
              else 0) := by
  intro m
  induction m with
  | zero =>
    intro _
    refine ⟨by simp, ?_, ?_⟩
    · intro r hr
      rw [List.range_zero, List.foldl_nil,
        getD_replicate_of_lt k r _ [] hr]
      simp
    · intro r hr j
      rw [List.range_zero, List.foldl_nil,
        getD_replicate_of_lt k r _ [] hr]
      simp [List.getD_eq_getElem?_getD]
  | succ m ih =>
    intro hm
    have hm' : m ≤ bounds.length := by omega
    obtain ⟨ihlen, ihrow, ihcell⟩ := ih hm'
    rw [List.range_succ, List.foldl_append, List.foldl_cons, List.foldl_nil]
    have hvlen : (u (bounds.getD m (0, 0)).1 (bounds.getD m (0, 0)).2
        k).length = k := hlen _ _ _
    refine ⟨?_, ?_, ?_⟩
    · rw [setColumn_length, ihlen, hvlen]; simp
    · intro r hr
      rw [setColumn_getD m _ _ r (by rw [ihlen]; exact hr)
        (by rw [hvlen]; exact hr)]
      rw [List.length_set]
      exact ihrow r hr
    · intro r hr j
      rw [setColumn_getD m _ _ r (by rw [ihlen]; exact hr)
        (by rw [hvlen]; exact hr)]
      by_cases hj : j = m
      · subst hj
        rw [getD_set_self _ _ _ _ (by rw [ihrow r hr]; omega)]
        rw [if_pos (by omega)]
      · rw [getD_set_ne _ _ _ _ _ fun he => hj he.symm, ihcell r hr j]
        by_cases hjm : j < m
        · rw [if_pos hjm, if_pos (by omega)]
        · rw [if_neg hjm, if_neg (by omega)]

/-- Claim C7: under numpy's contract for `np.random.uniform` (the oracle `u`
returns `k` draws, each within the closed interval `[lo, hi]` whenever
`lo ≤ hi`), and for bounds with `lower ≤ upper` in each dimension,
`random_sample bounds k` is a matrix of exactly `k` rows of `dim` cells, cell
`j` of each row lies in `[bounds[j,0], bounds[j,1]]`, and cell `j` is drawn
from the uniform call of dimension `j` alone (each dimension is drawn by its
own independent call). -/
theorem random_sample_shape_and_bounds :
    ∀ (u : ℚ → ℚ → Nat → List ℚ) (bounds : List (ℚ × ℚ)) (k : Nat),
      (∀ lo hi m, (u lo hi m).length = m) →
      (∀ lo hi m, lo ≤ hi → ∀ x ∈ u lo hi m, lo ≤ x ∧ x ≤ hi) →
      (∀ p ∈ bounds, p.1 ≤ p.2) →
      (random_sample u bounds k).length = k
      ∧ (∀ r, r < k →
          ((random_sample u bounds k).getD r []).length = bounds.length)
      ∧ (∀ r, r < k → ∀ j, j < bounds.length →
          ((random_sample u bounds k).getD r []).getD j 0
              = (u (bounds.getD j (0, 0)).1 (bounds.getD j (0, 0)).2 k).getD
                  r 0
            ∧ (bounds.getD j (0, 0)).1
                ≤ ((random_sample u bounds k).getD r []).getD j 0
            ∧ ((random_sample u bounds k).getD r []).getD j 0
                ≤ (bounds.getD j (0, 0)).2) := by
  intro u bounds k hlen hmem hb
  obtain ⟨h1, h2, h3⟩ :=
    random_sample_build u bounds k hlen bounds.length (le_refl _)
  refine ⟨h1, h2, ?_⟩
  intro r hr j hj
  have hcell := h3 r hr j
  rw [if_pos hj] at hcell
  have hbj : (bounds.getD j (0, 0)).1 ≤ (bounds.getD j (0, 0)).2 := by
    have : bounds.getD j (0, 0) ∈ bounds := by
      rw [List.getD_eq_getElem bounds (0, 0) hj]
      exact List.getElem_mem hj
    exact hb _ this
  have hdraw : (u (bounds.getD j (0, 0)).1 (bounds.getD j (0, 0)).2 k).getD
      r 0 ∈ u (bounds.getD j (0, 0)).1 (bounds.getD j (0, 0)).2 k :=
    getD_mem_of_lt _ r 0 (by rw [hlen]; exact hr)
  have hd := hmem _ _ k hbj _ hdraw
  unfold random_sample
  rw [hcell]
  exact ⟨rfl, hd.1, hd.2⟩

/-- Witness for C7: one dimension with bounds `[0, 1]`, two points, with the
lower-bound sampling oracle. -/
theorem random_sample_shape_and_bounds_witness :
    (random_sample uConst [(0, 1)] 2).length = 2
    ∧ ((random_sample uConst [(0, 1)] 2).getD 0 []).getD 0 0
        = (uConst 0 1 2).getD 0 0 := by
  have h := random_sample_shape_and_bounds uConst [(0, 1)] 2
    (fun lo hi m => List.length_replicate m lo)
    (fun lo hi m hlohi x hx => by
      have : x = lo := List.eq_of_mem_replicate hx
      rw [this]
      exact ⟨le_refl lo, hlohi⟩)
    (fun p hp => by
      have : p = ((0 : ℚ), (1 : ℚ)) := by simpa using hp
      rw [this]
      norm_num)
  exact ⟨h.1, (h.2.2 0 (by omega) 0 (by simp)).1⟩

/-- `setCol0` keeps the row count when the column vector is long enough. -/
lemma setCol0_length (Y : List (List ℝ)) (v : List ℝ) :
    (setCol0 Y v).length = min Y.length v.length := by
  simp [setCol0]

/-- Reading a row after the column-0 assignment: the new cell in front of the
untouched remaining columns. -/
lemma setCol0_getD :
    ∀ (Y : List (List ℝ)) (v : List ℝ) (r : Nat), r < Y.length →
      r < v.length →
      (setCol0 Y v).getD r [] = v.getD r 0 :: (Y.getD r []).tail := by
  intro Y
  induction Y with
  | nil => intro v r h1 _; simp at h1
  | cons row Y ih =>
    intro v r h1 h2
    cases v with
    | nil => simp at h2
    | cons x v =>
      cases r with
      | zero => rfl
      | succ r =>
        show (setCol0 Y v).getD r [] = v.getD r 0 :: (Y.getD r []).tail
        exact ih v r (by simpa using h1) (by simpa using h2)

/-- `col0` has one entry per row. -/
lemma col0_length (Y : List (List ℝ)) : (col0 Y).length = Y.length := by
  simp [col0]

/-- Entry `r` of `col0` is the head of row `r`. -/
lemma col0_getD :
    ∀ (Y : List (List ℝ)) (r : Nat), r < Y.length →
      (col0 Y).getD r 0 = (Y.getD r []).headD 0 := by
  intro Y
  induction Y with
  | nil => intro r h; simp at h
  | cons row Y ih =>
    intro r h
    cases r with
    | zero => rfl
    | succ r =>
      show (col0 Y).getD r 0 = (Y.getD r []).headD 0
      exact ih r (by simpa using h)

/-- Reading inside a mapped list of reals. -/
lemma getD_map_real (g : ℝ → ℝ) :
    ∀ (l : List ℝ) (r : Nat), r < l.length →
      (l.map g).getD r 0 = g (l.getD r 0) := by
  intro l
  induction l with
  | nil => intro r h; simp at h
  | cons a l ih =>
    intro r h
    cases r with
    | zero => rfl
    | succ r =>
      show (l.map g).getD r 0 = g (l.getD r 0)
      exact ih r (by simpa using h)

/-- Claim C6: `normalize` operates only on column 0. When normalization is
disabled, or the standard deviation of column 0 is not strictly positive
(i.e. zero: a constant column), the output is exactly the input; when
normalization is enabled and the standard deviation is strictly positive,
the output has the same rows, every column other than column 0 unchanged
(the row tails are preserved), and column 0 replaced cell-wise by
`(y - mean) / std`. Purity (the input array is never mutated) is the `copy`
at line 197 of `bo.py`, intrinsic in this functional embedding. -/
theorem normalize_col0_only :
    ∀ (nY : Bool) (Y : List (List ℝ)),
      (¬ (nY = true ∧ 0 < std0 (col0 Y)) → normalize nY Y = Y)
      ∧ (nY = true → 0 < std0 (col0 Y) →
          (normalize nY Y).length = Y.length
          ∧ ∀ r, r < Y.length →
              ((normalize nY Y).getD r []).tail = (Y.getD r []).tail
              ∧ ((normalize nY Y).getD r []).headD 0
                  = ((Y.getD r []).headD 0 - mean0 (col0 Y))
                      / std0 (col0 Y)) := by
  intro nY Y
  constructor
  · intro h
    unfold normalize
    rw [if_neg h]
  · intro h1 h2
    have hcond : nY = true ∧ 0 < std0 (col0 Y) := ⟨h1, h2⟩
    have hnorm : normalize nY Y
        = setCol0 Y
            ((col0 Y).map
              (fun y => (y - mean0 (col0 Y)) / std0 (col0 Y))) := by
      unfold normalize
      rw [if_pos hcond]
    have hmaplen :
        ((col0 Y).map
          (fun y => (y - mean0 (col0 Y)) / std0 (col0 Y))).length
          = Y.length := by
      rw [List.length_map, col0_length]
    constructor
    · rw [hnorm, setCol0_length, hmaplen]
      simp
    · intro r hr
      have hrow := setCol0_getD Y _ r hr (by rw [hmaplen]; exact hr)
      rw [hnorm, hrow]
      refine ⟨rfl, ?_⟩
      show ((col0 Y).map
          (fun y => (y - mean0 (col0 Y)) / std0 (col0 Y))).getD r 0 = _
      rw [getD_map_real _ _ r (by rw [col0_length]; exact hr),
        col0_getD Y r hr]

/-- Witness for C6: with normalization disabled the input passes through. -/
theorem normalize_col0_only_witness :
    normalize false [[1, 2]] = [[1, 2]] :=
  (normalize_col0_only false [[1, 2]]).1 (by simp)

/-- Head hit of an association-list lookup. -/
lemma lookup_cons_self (k : String) (v : PyVal) (l : PyDict) :
    List.lookup k ((k, v) :: l) = some v := by
  simp [List.lookup]

/-- Head miss of an association-list lookup. -/
lemma lookup_cons_ne (k k2 : String) (v : PyVal) (l : PyDict)
    (h : ¬ k = k2) : List.lookup k ((k2, v) :: l) = List.lookup k l := by
  simp [List.lookup, beq_eq_false_iff_ne.mpr h]

/-- Lookup distributes over append, preferring the first list. -/
lemma lookup_append (k : String) (l1 l2 : PyDict) :
    List.lookup k (l1 ++ l2)
      = (List.lookup k l1).or (List.lookup k l2) := by
  induction l1 with
  | nil => rfl
  | cons a l ih =>
    obtain ⟨k2, v⟩ := a
    by_cases h : k = k2
    · subst h
      rw [List.cons_append, lookup_cons_self, lookup_cons_self]
      rfl
    · rw [List.cons_append, lookup_cons_ne _ _ _ _ h,
        lookup_cons_ne _ _ _ _ h, ih]

/-- A key that is present keeps its value across the `mean_function`
defaulting of lines 19-20. -/
lemma lookup_withDefault (opts : PyDict) (k : String) (v : PyVal)
    (h : List.lookup k opts = some v) :
    List.lookup k (withDefaultMeanFunction opts) = some v := by
  unfold withDefaultMeanFunction
  by_cases hm : hasKey opts "mean_function"
  · rw [if_pos hm]; exact h
  · rw [if_neg hm, lookup_append, h]; rfl

/-- After the defaulting of lines 19-20, `mean_function` is always bound. -/
lemma lookup_withDefault_mf (opts : PyDict) :
    ∃ v, List.lookup "mean_function" (withDefaultMeanFunction opts)
      = some v := by
  unfold withDefaultMeanFunction
  by_cases hm : hasKey opts "mean_function"
  · rw [if_pos hm]
    unfold hasKey at hm
    obtain ⟨v, hv⟩ := Option.isSome_iff_exists.mp hm
    exact ⟨v, hv⟩
  · rw [if_neg hm, lookup_append]
    unfold hasKey at hm
    rw [Option.not_isSome_iff_eq_none.mp hm]
    exact ⟨PyVal.pynone, rfl⟩

/-- The defaulting of lines 19-20 binds no key other than `mean_function`. -/
lemma lookup_withDefault_other (opts : PyDict) (k : String)
    (hk : ¬ k = "mean_function") :
    List.lookup k (withDefaultMeanFunction opts) = List.lookup k opts := by
  unfold withDefaultMeanFunction
  by_cases hm : hasKey opts "mean_function"
  · rw [if_pos hm]
  · rw [if_neg hm, lookup_append, lookup_cons_ne _ _ _ _ hk]
    cases List.lookup k opts <;> rfl

/-- Subscripting a dict at a bound key. -/
lemma dictGet_eq (d : PyDict) (k : String) (v : PyVal)
    (h : List.lookup k d = some v) : dictGet d k = Except.ok v := by
  unfold dictGet
  rw [h]

/-- Subscripting a dict at a missing key raises `KeyError`. -/
lemma dictGet_missing (d : PyDict) (k : String)
    (h : List.lookup k d = none) : dictGet d k = Except.error .keyError := by
  unfold dictGet
  rw [h]

/-- Bind on a successful `Except` step. -/
lemma exbind_ok {α β : Type} (a : α) (f : α → Except PyErr β) :
    (Except.ok a : Except PyErr α) >>= f = f a := rfl

/-- Bind on a failed `Except` step. -/
lemma exbind_err {α β : Type} (e : PyErr) (f : α → Except PyErr β) :
    (Except.error e : Except PyErr α) >>= f = Except.error e := rfl

/-- With the `objective` key bound to an objective, `BO.__init__` runs the
defaulting of lines 19-20 and then the body, on the defaulted dict. -/
lemma BO_init_eq (opts : PyDict) (b : List (ℚ × ℚ))
    (hobj : List.lookup "objective" opts = some (PyVal.pyobjective b)) :
    BO_init opts = (BO_init_body b (withDefaultMeanFunction opts),
      withDefaultMeanFunction opts) := by
  unfold BO_init
  rw [hobj]

/-- With the `super().__init__` arguments and the unpacked options all bound,
the body of `BO.__init__` reduces to the noise handling of lines 36-38. -/
lemma BO_init_body_eq (b : List (ℚ × ℚ)) (d : PyDict)
    (vk vm vi vb vs vh : PyVal)
    (hk : List.lookup "kernel" d = some vk)
    (hm : List.lookup "mean_function" d = some vm)
    (hi : List.lookup "iterations" d = some vi)
    (hb : List.lookup "batch_size" d = some vb)
    (hs : List.lookup "initial_size" d = some vs)
    (hh : List.lookup "hessian" d = some vh) :
    BO_init_body b d
      = dictGet d "noise" >>= fun noise =>
          match noise with
          | PyVal.pynone =>
            Except.ok ⟨b, b.length, vi, vb, vs, vh, d, 1, false⟩
          | PyVal.pynum q =>
            Except.ok ⟨b, b.length, vi, vb, vs, vh, d, q, true⟩
          | _ => Except.error .typeError := by
  unfold BO_init_body
  rw [dictGet_eq _ _ _ hk, exbind_ok, dictGet_eq _ _ _ hm, exbind_ok,
    dictGet_eq _ _ _ hi, exbind_ok, dictGet_eq _ _ _ hb, exbind_ok,
    dictGet_eq _ _ _ hs, exbind_ok, dictGet_eq _ _ _ hh, exbind_ok]

/-- Claim C8 counterexample: a configuration bundle that contains every
recognized option except `noise`. The claim says construction succeeds with
the likelihood noise left free; in fact `self.options['noise']` at line 36
raises `KeyError`: the `noise` key, unlike `mean_function`, gets no default. -/
theorem noise_key_missing_raises :
    (BO_init optsNoNoise).1 = Except.error PyErr.keyError := by
  rfl

/-- Claim C8 as amended: the `noise` key must be present in the options dict.
With every other required option bound: when the key is missing, construction
raises `KeyError`; when `options['noise']` is `None`, construction succeeds
with the likelihood variance left at its free default; when it is a numeric
value `q`, construction succeeds with the likelihood variance set to `q` and
fixed (excluded from fitting). -/
theorem noise_option_behaviour :
    ∀ (opts : PyDict) (b : List (ℚ × ℚ)) (vk vi vb vs vh : PyVal),
      List.lookup "objective" opts = some (PyVal.pyobjective b) →
      List.lookup "kernel" opts = some vk →
      List.lookup "iterations" opts = some vi →
      List.lookup "batch_size" opts = some vb →
      List.lookup "initial_size" opts = some vs →
      List.lookup "hessian" opts = some vh →
      (List.lookup "noise" opts = none →
          (BO_init opts).1 = Except.error PyErr.keyError)
      ∧ (List.lookup "noise" opts = some PyVal.pynone →
          ∃ st, (BO_init opts).1 = Except.ok st
            ∧ st.likelihood_variance_fixed = false)
      ∧ (∀ q : ℚ, List.lookup "noise" opts = some (PyVal.pynum q) →
          ∃ st, (BO_init opts).1 = Except.ok st
            ∧ st.likelihood_variance = q
            ∧ st.likelihood_variance_fixed = true) := by
  intro opts b vk vi vb vs vh hobj hk hi hb hs hh
  obtain ⟨vm, hm⟩ := lookup_withDefault_mf opts
  have hbody := BO_init_body_eq b (withDefaultMeanFunction opts)
    vk vm vi vb vs vh
    (lookup_withDefault _ _ _ hk) hm
    (lookup_withDefault _ _ _ hi) (lookup_withDefault _ _ _ hb)
    (lookup_withDefault _ _ _ hs) (lookup_withDefault _ _ _ hh)
  rw [BO_init_eq opts b hobj]
  refine ⟨?_, ?_, ?_⟩
  · intro hnoise
    have hn2 : List.lookup "noise" (withDefaultMeanFunction opts)
        = none := by
      rw [lookup_withDefault_other opts "noise" (by decide), hnoise]
    show BO_init_body b (withDefaultMeanFunction opts) = _
    rw [hbody, dictGet_missing _ _ hn2, exbind_err]
  · intro hnoise
    have hn2 : List.lookup "noise" (withDefaultMeanFunction opts)
        = some PyVal.pynone := by
      rw [lookup_withDefault_other opts "noise" (by decide), hnoise]
    refine ⟨⟨b, b.length, vi, vb, vs, vh, withDefaultMeanFunction opts,
      1, false⟩, ?_, rfl⟩
    show BO_init_body b (withDefaultMeanFunction opts) = _
    rw [hbody, dictGet_eq _ _ _ hn2, exbind_ok]
  · intro q hnoise
    have hn2 : List.lookup "noise" (withDefaultMeanFunction opts)
        = some (PyVal.pynum q) := by
      rw [lookup_withDefault_other opts "noise" (by decide), hnoise]
    refine ⟨⟨b, b.length, vi, vb, vs, vh, withDefaultMeanFunction opts,
      q, true⟩, ?_, rfl, rfl⟩
    show BO_init_body b (withDefaultMeanFunction opts) = _
    rw [hbody, dictGet_eq _ _ _ hn2, exbind_ok]

/-- Witness for the amended C8 at concrete configuration bundles. -/
theorem noise_option_behaviour_witness :
    ((BO_init optsNoNoise).1 = Except.error PyErr.keyError
      ∧ ∃ st, (BO_init optsNoiseNone).1 = Except.ok st
          ∧ st.likelihood_variance_fixed = false) := by
  refine ⟨(noise_option_behaviour optsNoNoise [(0, 1)] (PyVal.pyhandle 0)
      (PyVal.pyint 1) (PyVal.pyint 1) (PyVal.pyint 3) (PyVal.pybool false)
      rfl rfl rfl rfl rfl rfl).1 rfl,
    (noise_option_behaviour optsNoiseNone [(0, 1)] (PyVal.pyhandle 0)
      (PyVal.pyint 1) (PyVal.pyint 1) (PyVal.pyint 3) (PyVal.pybool false)
      rfl rfl rfl rfl rfl rfl).2.1 rfl⟩

/-- Claim C10 (implicit): provided the `objective` read of line 16 succeeds,
`BO.__init__` mutates the caller's options dict exactly when it lacks a
`mean_function` key — inserting `mean_function = None` into it, a side effect
the caller observes — and leaves every other entry unchanged; when the key is
present the caller's dict is untouched. -/
theorem init_inserts_mean_function :
    ∀ (opts : PyDict) (b : List (ℚ × ℚ)),
      List.lookup "objective" opts = some (PyVal.pyobjective b) →
      (hasKey opts "mean_function" = false →
          (BO_init opts).2 = opts ++ [("mean_function", PyVal.pynone)]
          ∧ List.lookup "mean_function" (BO_init opts).2 = some PyVal.pynone
          ∧ ∀ k, ¬ k = "mean_function" →
              List.lookup k (BO_init opts).2 = List.lookup k opts)
      ∧ (hasKey opts "mean_function" = true → (BO_init opts).2 = opts) := by
  intro opts b hobj
  rw [BO_init_eq opts b hobj]
  constructor
  · intro habs
    have hd : withDefaultMeanFunction opts
        = opts ++ [("mean_function", PyVal.pynone)] := by
      unfold withDefaultMeanFunction
      rw [habs]
      rfl
    refine ⟨hd, ?_, ?_⟩
    · show List.lookup "mean_function" (withDefaultMeanFunction opts) = _
      rw [hd, lookup_append]
      unfold hasKey at habs
      have hnone : List.lookup "mean_function" opts = none := by
        cases hl : List.lookup "mean_function" opts with
        | none => rfl
        | some v => rw [hl] at habs; cases habs
      rw [hnone]
      rfl
    · intro k hk
      exact lookup_withDefault_other opts k hk
  · intro hpres
    show withDefaultMeanFunction opts = opts
    unfold withDefaultMeanFunction
    rw [hpres]
    rfl

/-- Witness for C10: the bundle without a `mean_function` key gets one
appended, and a bundle that has one is left alone. -/
theorem init_inserts_mean_function_witness :
    (BO_init optsNoNoise).2
      = optsNoNoise ++ [("mean_function", PyVal.pynone)] :=
  ((init_inserts_mean_function optsNoNoise [(0, 1)] rfl).1 rfl).1

end BO
